import Mathlib

/-!
Verification of the Attachment-Architect scan engine
(`Attachment-Architect-v1.0/jira_dc_scanner.py`).

The Python source is shallowly embedded below:

* association lists (`lookupA`, `updateA`) model Python dicts, whose
  iteration order is insertion order — new keys are appended at the end;
* the pure classification logic of `AttachmentScanner._process_attachment_result`
  is embedded field by field (`classify_step`, `project_stats_after`,
  `file_type_stats_after`);
* the paginated main loop of `AttachmentScanner.scan`, the checkpoint logic of
  `_save_progress`, `_resume_scan` and `_finalize_scan` are embedded as a
  fuel-bounded loop on an explicit state, with the Jira server modelled as a
  fixed issue list plus a per-offset failure predicate;
* `DownloadManager._download_and_hash_single` / `download_and_hash_batch`
  are embedded with oracles for the network and for `hash_from_url`
  (an `Option` result, `none` modelling a raised exception);
* `RateLimiter.wait_if_needed` is embedded on a logical rational-valued clock,
  both as the sequential transition the source performs and as a two-thread
  interleaving (the source guards `last_request_time` with no lock).

Wall-clock timestamps, log output and the JSON/SQLite serialisation layer are
not modelled; they do not affect any of the stated properties.
-/

namespace AttachmentArchitect

/-! ## Association lists (Python dict model) -/

/-- Lookup in an association list; models `d[k]` / `k in d` on a Python dict. -/
def lookupA {V : Type} (k : String) : List (String × V) → Option V
  | [] => none
  | p :: rest => if p.1 = k then some p.2 else lookupA k rest

/-- Update the (unique) entry with key `k` in place; models mutating `d[k]`. -/
def updateA {V : Type} (k : String) (u : V → V) : List (String × V) → List (String × V)
  | [] => []
  | p :: rest => if p.1 = k then (p.1, u p.2) :: rest else p :: updateA k u rest

/-- Sum of a numeric projection over the values of an association list. -/
def sumBy {V : Type} (f : V → Nat) (l : List (String × V)) : Nat :=
  (l.map (fun p => f p.2)).sum

/-- Models `if k not in d: d[k] = default` — insertion appends at the end. -/
def ensureA {V : Type} (k : String) (d : V) (l : List (String × V)) :
    List (String × V) :=
  match lookupA k l with
  | some _ => l
  | none => l ++ [(k, d)]

/-! ## Data model

Records mirroring the dictionaries the scanner builds
(`jira_dc_scanner.py`, lines 1153-1253 and surroundings). -/

/-- Attachment metadata as delivered by the Jira search API
(fields read at lines 749-752 and 1158-1167 of the source). -/
structure Attachment where
  id : String
  filename : String
  size : Nat
  mimeType : String
  contentUrl : String
  created : String
  authorDisplayName : String
  authorId : String
deriving Repr, DecidableEq

/-- Issue metadata as read by `_process_issue` (lines 1109-1129). -/
structure Issue where
  key : String
  projectKey : String
  projectName : String
  statusName : String
  statusCategoryName : String
  statusCategoryKey : String
  updated : String
  attachments : List Attachment
deriving Repr, DecidableEq

/-- Per-location record inside a duplicate group (lines 1181-1188, 1210-1217). -/
structure Location where
  issue_key : String
  project_key : String
  attachment_id : String
  is_canonical : Bool
  date_added : String
  author : String
deriving Repr, DecidableEq

/-- Duplicate group record (lines 1195-1218). -/
structure DuplicateGroup where
  file_name : String
  file_size : Nat
  mime_type : String
  canonical_issue_key : String
  canonical_attachment_id : String
  duplicate_count : Nat
  total_wasted_space : Nat
  author : String
  author_id : String
  created : String
  status : String
  status_category : String
  status_category_key : String
  issue_last_updated : String
  locations : List Location
deriving Repr, DecidableEq

/-- Per-project aggregate (lines 1228-1234). -/
structure ProjectStats where
  project_name : String
  total_size : Nat
  duplicate_size : Nat
  file_count : Nat
  duplicate_count : Nat
deriving Repr, DecidableEq

/-- Per-file-extension aggregate (lines 1246-1249): the source stores only
`total_size` and `count` under each extension key. -/
structure FileTypeStats where
  total_size : Nat
  count : Nat
deriving Repr, DecidableEq

/-- Rolling scan statistics (`_initialize_stats`, lines 1097-1107). -/
structure ScanStats where
  total_files : Nat
  total_size : Nat
  canonical_files : Nat
  duplicate_files : Nat
  duplicate_size : Nat
  project_stats : List (String × ProjectStats)
  file_type_stats : List (String × FileTypeStats)
deriving Repr, DecidableEq

/-- The in-memory duplicate catalog: a dict keyed by content fingerprint. -/
abbrev Groups := List (String × DuplicateGroup)

/-- `AttachmentScanner._initialize_stats` (lines 1097-1107). -/
def initialize_stats : ScanStats :=
  { total_files := 0, total_size := 0, canonical_files := 0,
    duplicate_files := 0, duplicate_size := 0,
    project_stats := [], file_type_stats := [] }

/-! ## Classification (`_process_attachment_result`) -/

/-- Issue-level context threaded into `_process_attachment_result`
(arguments at lines 1139-1148). -/
structure IssueCtx where
  issue_key : String
  project_key : String
  project_name : String
  status : String
  status_category : String
  status_category_key : String
  issue_last_updated : String
deriving Repr, DecidableEq

/-- Context extracted from an issue by `_process_issue` (lines 1112-1126). -/
def issue_ctx (issue : Issue) : IssueCtx :=
  { issue_key := issue.key, project_key := issue.projectKey,
    project_name := issue.projectName, status := issue.statusName,
    status_category := issue.statusCategoryName,
    status_category_key := issue.statusCategoryKey,
    issue_last_updated := issue.updated }

/-- One `(attachment_id, file_hash, attachment)` tuple returned by the download
pool, together with the issue context it is merged under. -/
structure AttachmentResult where
  att : Attachment
  file_hash : String
  ctx : IssueCtx
deriving Repr, DecidableEq

/-- The Location dictionary built at lines 1181-1188 / 1210-1217. -/
def mk_location (r : AttachmentResult) (is_canonical : Bool) : Location :=
  { issue_key := r.ctx.issue_key, project_key := r.ctx.project_key,
    attachment_id := r.att.id, is_canonical := is_canonical,
    date_added := r.att.created, author := r.att.authorDisplayName }

/-- The fresh group created on first sighting of a fingerprint
(lines 1195-1218). `author_id` follows `author.get('name', author.get('key', ...))`,
collapsed here into the single `authorId` field. -/
def mk_group (r : AttachmentResult) : DuplicateGroup :=
  { file_name := r.att.filename, file_size := r.att.size,
    mime_type := r.att.mimeType, canonical_issue_key := r.ctx.issue_key,
    canonical_attachment_id := r.att.id, duplicate_count := 0,
    total_wasted_space := 0, author := r.att.authorDisplayName,
    author_id := r.att.authorId, created := r.att.created,
    status := r.ctx.status, status_category := r.ctx.status_category,
    status_category_key := r.ctx.status_category_key,
    issue_last_updated := r.ctx.issue_last_updated,
    locations := [mk_location r true] }

/-- Lines 1176-1188 applied to the existing group of a re-sighted
fingerprint: bump `duplicate_count` and `total_wasted_space`, and append a
non-canonical location only while fewer than 20 are recorded. -/
def dup_group_update (r : AttachmentResult) (group : DuplicateGroup) :
    DuplicateGroup :=
  { group with
    duplicate_count := group.duplicate_count + 1,
    total_wasted_space := group.total_wasted_space + r.att.size,
    locations :=
      if group.locations.length < 20 then
        group.locations ++ [mk_location r false]
      else group.locations }

/-- Lines 1172-1224: classify the result as duplicate or canonical, update the
group catalog, and bump the global counters (`duplicate_files`,
`duplicate_size`, `canonical_files`, `total_files`, `total_size`). -/
def classify_step (r : AttachmentResult) (duplicate_groups : Groups)
    (scan_stats : ScanStats) : Groups × ScanStats :=
  let file_size := r.att.size
  match lookupA r.file_hash duplicate_groups with
  | some _ =>
    (updateA r.file_hash (dup_group_update r) duplicate_groups,
      { scan_stats with
        duplicate_files := scan_stats.duplicate_files + 1,
        duplicate_size := scan_stats.duplicate_size + file_size,
        total_files := scan_stats.total_files + 1,
        total_size := scan_stats.total_size + file_size })
  | none =>
    (duplicate_groups ++ [(r.file_hash, mk_group r)],
      { scan_stats with
        canonical_files := scan_stats.canonical_files + 1,
        total_files := scan_stats.total_files + 1,
        total_size := scan_stats.total_size + file_size })

/-- The fresh per-project entry created at lines 1228-1234. -/
def project_entry_init (r : AttachmentResult) : ProjectStats :=
  { project_name := r.ctx.project_name, total_size := 0, duplicate_size := 0,
    file_count := 0, duplicate_count := 0 }

/-- Lines 1236-1242 applied to one project entry: always bump
`total_size`/`file_count`; bump the `duplicate_*` counters when the catalog
check `is_dup` succeeded. -/
def project_entry_update (r : AttachmentResult) (is_dup : Bool)
    (ps : ProjectStats) : ProjectStats :=
  let ps' := { ps with total_size := ps.total_size + r.att.size,
                       file_count := ps.file_count + 1 }
  if is_dup then
    { ps' with duplicate_size := ps'.duplicate_size + r.att.size,
               duplicate_count := ps'.duplicate_count + 1 }
  else ps'

/-- The check at line 1240:
`file_hash in duplicate_groups and duplicate_groups[file_hash]['duplicate_count'] > 0`,
evaluated against the catalog *after* classification. -/
def is_dup_after (r : AttachmentResult) (groups_after : Groups) : Bool :=
  match lookupA r.file_hash groups_after with
  | some group => decide (0 < group.duplicate_count)
  | none => false

/-- Lines 1226-1242: per-project aggregate update. The entry is created on
first sighting of the project key; the `duplicate_*` counters are bumped only
when the (already updated) catalog shows `duplicate_count > 0` for this hash. -/
def project_stats_after (r : AttachmentResult) (groups_after : Groups)
    (pstats : List (String × ProjectStats)) : List (String × ProjectStats) :=
  updateA r.ctx.project_key
    (project_entry_update r (is_dup_after r groups_after))
    (ensureA r.ctx.project_key (project_entry_init r) pstats)

/-- Lines 1251-1253 applied to one file-type entry. -/
def file_type_entry_update (r : AttachmentResult) (fs : FileTypeStats) :
    FileTypeStats :=
  { fs with total_size := fs.total_size + r.att.size, count := fs.count + 1 }

/-- Lines 1244-1253: per-file-extension aggregate update. -/
def file_type_stats_after (r : AttachmentResult) (ext : String)
    (fstats : List (String × FileTypeStats)) : List (String × FileTypeStats) :=
  updateA ext (file_type_entry_update r)
    (ensureA ext { total_size := 0, count := 0 } fstats)

/-- Characters after the last dot, if any; the list analogue of
`file_name.rsplit('.', 1)[1]` guarded by `'.' in file_name`. -/
def ext_after_last_dot : List Char → Option (List Char)
  | [] => none
  | c :: rest =>
    match ext_after_last_dot rest with
    | some e => some e
    | none => if c = '.' then some rest else none

/-- `AttachmentScanner._get_file_extension` (lines 1255-1259). -/
def get_file_extension (file_name : String) : String :=
  match ext_after_last_dot file_name.data with
  | some e => String.mk (e.map Char.toLower)
  | none => "no-extension"

/-- `AttachmentScanner._process_attachment_result` (lines 1153-1253). -/
def process_attachment_result (r : AttachmentResult) (duplicate_groups : Groups)
    (scan_stats : ScanStats) : Groups × ScanStats :=
  let c := classify_step r duplicate_groups scan_stats
  (c.1,
    { c.2 with
      project_stats := project_stats_after r c.1 c.2.project_stats,
      file_type_stats :=
        file_type_stats_after r (get_file_extension r.att.filename)
          c.2.file_type_stats })

/-- Fold `_process_attachment_result` over a list of download-pool results, in
order (the loop at lines 1138-1151). -/
def process_results (rs : List AttachmentResult) (duplicate_groups : Groups)
    (scan_stats : ScanStats) : Groups × ScanStats :=
  match rs with
  | [] => (duplicate_groups, scan_stats)
  | r :: rest =>
    process_results rest
      (process_attachment_result r duplicate_groups scan_stats).1
      (process_attachment_result r duplicate_groups scan_stats).2

/-! ## Scan orchestration (`AttachmentScanner.scan` and friends)

The Jira server is modelled as a fixed list of issues served page-wise by
offset (`search_issues`, lines 226-250 of the source: one page is
`issues[start_at : start_at + max_results]`), together with a predicate
saying at which offsets the search call raises after retries.  The download
pool inside `_process_issue` is abstracted by a total fingerprint function
`hashOf` (the success path of `download_and_hash_batch`, which preserves
submission order).  Wall-clock fields (`start_time`, `completion_time`,
`duration_ms`, checkpoint timestamps) and the JQL string are not modelled. -/

/-- Mutable scan-state dict (`_initialize_scan`, lines 1023-1032). -/
structure ScanState where
  scan_id : String
  status : String
  total_issues : Nat
  processed_issues : Nat
  last_start_at : Nat
deriving Repr, DecidableEq

/-- Checkpoint row (`save_checkpoint`, lines 512-530).  The source also stores
`processed_attachment_ids`, which `_save_progress` always passes as the empty
set (line 1277), and a timestamp; both are omitted. -/
structure Checkpoint where
  last_issue_key : String
  last_start_at : Nat
deriving Repr, DecidableEq

/-- The four SQLite tables of `StorageManager`, restricted to a single scan id
(all operations here key on one scan). -/
structure Storage where
  scanRow : Option ScanState
  statsRow : Option ScanStats
  groupRows : Groups
  checkpointRow : Option Checkpoint
deriving Repr, DecidableEq

def emptyStorage : Storage :=
  { scanRow := none, statsRow := none, groupRows := [], checkpointRow := none }

/-- `AttachmentScanner._save_progress` (lines 1261-1284): writes scan state,
stats, groups and a checkpoint.  `scan_state.get('last_issue_key', '')` is
always `''` because nothing ever sets that key. -/
def save_progress (scan_state : ScanState) (scan_stats : ScanStats)
    (duplicate_groups : Groups) (_storage : Storage) : Storage :=
  { scanRow := some scan_state,
    statsRow := some scan_stats,
    groupRows := duplicate_groups,
    checkpointRow := some { last_issue_key := "",
                            last_start_at := scan_state.last_start_at } }

/-- The remote issue tracker: a fixed issue list plus, per pagination offset,
whether the search call at that offset raises (after the client's retries). -/
structure JiraModel where
  issues : List Issue
  fetchFails : Nat → Bool

/-- `JiraDataCenterClient.search_issues` (lines 226-250): one page of results,
or `none` when the call raises. -/
def search_issues (jira : JiraModel) (start_at max_results : Nat) :
    Option (List Issue) :=
  if jira.fetchFails start_at then none
  else some ((jira.issues.drop start_at).take max_results)

/-- `AttachmentScanner._process_issue` (lines 1109-1151): skip issues without
attachments, fan the attachment list out to the download pool (abstracted by
`hashOf`), then fold each result into catalog and stats. -/
def process_issue (hashOf : Attachment → String) (issue : Issue)
    (duplicate_groups : Groups) (scan_stats : ScanStats) : Groups × ScanStats :=
  process_results
    (issue.attachments.map (fun a =>
      { att := a, file_hash := hashOf a, ctx := issue_ctx issue }))
    duplicate_groups scan_stats

/-- The `for issue in issues` loop at lines 962-968. -/
def process_issue_list (hashOf : Attachment → String) (issues : List Issue)
    (duplicate_groups : Groups) (scan_stats : ScanStats) : Groups × ScanStats :=
  match issues with
  | [] => (duplicate_groups, scan_stats)
  | i :: rest =>
    process_issue_list hashOf rest
      (process_issue hashOf i duplicate_groups scan_stats).1
      (process_issue hashOf i duplicate_groups scan_stats).2

/-- Configuration knobs read by the scanner (lines 845-846). -/
structure ScanConfig where
  batch_size : Nat
  checkpoint_interval : Nat
deriving Repr, DecidableEq

/-- The loop-local state of `AttachmentScanner.scan`:  the three mutable
dicts, the storage, `start_at`, `issues_since_checkpoint`, plus a count of
checkpoints written (used only to name interruption points). -/
structure LoopSt where
  state : ScanState
  groups : Groups
  stats : ScanStats
  storage : Storage
  startAt : Nat
  sinceCheckpoint : Nat
  checkpointsWritten : Nat
deriving Repr, DecidableEq

/-- The main loop of `AttachmentScanner.scan` (lines 939-1001).

Per iteration: stop when `start_at ≥ total_issues`; fetch one page (on a raise
the loop `break`s, line 955); `break` on an empty page (line 958); fold the
page's issues into catalog and stats; set `processed_issues += len(issues)`
and `last_start_at = start_at` (lines 971-972); after
`issues_since_checkpoint ≥ checkpoint_interval` issues call `_save_progress`
(lines 983-986); advance `start_at += batch_size` (line 989).

`stopAfterCheckpoint = some k` models a cooperative cancel (KeyboardInterrupt)
delivered immediately after the k-th `_save_progress` of this loop: the
handler at lines 991-995 runs `_save_progress` once more with unchanged data
and re-raises, so the loop exits with that checkpoint persisted.  `fuel`
bounds the recursion; `total_issues + 1` iterations are always enough when
`batch_size ≥ 1`. -/
def scan_loop (cfg : ScanConfig) (jira : JiraModel)
    (hashOf : Attachment → String) (stopAfterCheckpoint : Option Nat) :
    Nat → LoopSt → LoopSt
  | 0, st => st
  | fuel + 1, st =>
    if st.startAt < st.state.total_issues then
      match search_issues jira st.startAt cfg.batch_size with
      | none => st
      | some issues =>
        if issues.isEmpty then st
        else
          let folded := process_issue_list hashOf issues st.groups st.stats
          let state' := { st.state with
              processed_issues := st.state.processed_issues + issues.length,
              last_start_at := st.startAt }
          let since := st.sinceCheckpoint + issues.length
          if since ≥ cfg.checkpoint_interval then
            let storage' := save_progress state' folded.2 folded.1 st.storage
            let st' : LoopSt :=
              { state := state', groups := folded.1, stats := folded.2,
                storage := storage', startAt := st.startAt + cfg.batch_size,
                sinceCheckpoint := 0,
                checkpointsWritten := st.checkpointsWritten + 1 }
            if stopAfterCheckpoint = some st'.checkpointsWritten then st'
            else scan_loop cfg jira hashOf stopAfterCheckpoint fuel st'
          else
            scan_loop cfg jira hashOf stopAfterCheckpoint fuel
              { state := state', groups := folded.1, stats := folded.2,
                storage := st.storage, startAt := st.startAt + cfg.batch_size,
                sinceCheckpoint := since,
                checkpointsWritten := st.checkpointsWritten }
    else st

/-- `AttachmentScanner._initialize_scan` (lines 1013-1040): fresh scan state
with `total_issues` from the count query (`maxResults=0` trick, so the length
of the matching issue list) and an initial `save_scan_state`. -/
def initialize_scan (jira : JiraModel) (scan_id : String) :
    ScanState × Groups × ScanStats :=
  ({ scan_id := scan_id, status := "running",
     total_issues := jira.issues.length, processed_issues := 0,
     last_start_at := 0 }, [], initialize_stats)

/-- Results of a finished `scan()` call plus the storage it left behind. -/
structure ScanRun where
  state : ScanState
  stats : ScanStats
  groups : Groups
  storage : Storage
deriving Repr, DecidableEq

/-- `AttachmentScanner._finalize_scan` (lines 1286-1313): mark the scan
completed and persist everything via `_save_progress`. -/
def finalize_scan (st : LoopSt) : ScanRun :=
  let state' := { st.state with status := "completed" }
  { state := state', stats := st.stats, groups := st.groups,
    storage := save_progress state' st.stats st.groups st.storage }

/-- `scan()` on a fresh scan (lines 898-1011): initialize, run the loop, then
finalize.  The loop's `break` paths fall through to `_finalize_scan`. -/
def run_scan_fresh (cfg : ScanConfig) (jira : JiraModel)
    (hashOf : Attachment → String) (scan_id : String) : ScanRun :=
  let init := initialize_scan jira scan_id
  let storage0 := { emptyStorage with scanRow := some init.1 }
  finalize_scan
    (scan_loop cfg jira hashOf none (jira.issues.length + 1)
      { state := init.1, groups := init.2.1, stats := init.2.2,
        storage := storage0, startAt := init.1.last_start_at,
        sinceCheckpoint := 0, checkpointsWritten := 0 })

/-- A fresh `scan()` interrupted by a cooperative cancel right after its k-th
checkpoint: the KeyboardInterrupt handler (lines 991-995) saves progress once
more — with data identical to the checkpoint just written — and re-raises, so
no finalization happens.  Meaningful when the loop reaches k checkpoints. -/
def run_scan_interrupted (cfg : ScanConfig) (jira : JiraModel)
    (hashOf : Attachment → String) (scan_id : String) (k : Nat) : LoopSt :=
  let init := initialize_scan jira scan_id
  let storage0 := { emptyStorage with scanRow := some init.1 }
  let stEnd := scan_loop cfg jira hashOf (some k) (jira.issues.length + 1)
      { state := init.1, groups := init.2.1, stats := init.2.2,
        storage := storage0, startAt := init.1.last_start_at,
        sinceCheckpoint := 0, checkpointsWritten := 0 }
  { stEnd with
    storage := save_progress stEnd.state stEnd.stats stEnd.groups stEnd.storage }

/-- `AttachmentScanner._resume_scan` (lines 1042-1095): load the scan row
(`none` models the ValueError when it is missing), take `last_start_at` from
the checkpoint if present, else from `processed_issues`; load groups and
stats (fresh stats when none were saved). -/
def resume_scan (storage : Storage) : Option (ScanState × Groups × ScanStats) :=
  match storage.scanRow with
  | none => none
  | some row =>
    let last :=
      match storage.checkpointRow with
      | some cp => cp.last_start_at
      | none => row.processed_issues
    some ({ scan_id := row.scan_id, status := "running",
            total_issues := row.total_issues,
            processed_issues := row.processed_issues,
            last_start_at := last },
          storage.groupRows,
          match storage.statsRow with
          | some s => s
          | none => initialize_stats)

/-- `scan(resume=True, scan_id=...)` (lines 898-1011) starting from a stored
state: `start_at` is the loaded `last_start_at` (line 921). -/
def run_scan_resumed (cfg : ScanConfig) (jira : JiraModel)
    (hashOf : Attachment → String) (storage : Storage) : Option ScanRun :=
  match resume_scan storage with
  | none => none
  | some loaded =>
    some (finalize_scan
      (scan_loop cfg jira hashOf none (loaded.1.total_issues + 1)
        { state := loaded.1, groups := loaded.2.1, stats := loaded.2.2,
          storage := storage, startAt := loaded.1.last_start_at,
          sinceCheckpoint := 0, checkpointsWritten := 0 }))

/-- `find_incomplete_scans` (lines 581-602), restricted to one scan. -/
def find_incomplete_scans (storage : Storage) : List ScanState :=
  match storage.scanRow with
  | some s => if s.status = "running" then [s] else []
  | none => []

/-! ## Concrete scan scenarios

Two issues in one project, one attachment each, distinct contents (the
fingerprint function separates them by attachment id); page size 1 and a
checkpoint after every issue. -/

def attA : Attachment :=
  { id := "a1", filename := "a.bin", size := 100, mimeType := "bin",
    contentUrl := "u-a1", created := "t1", authorDisplayName := "Ann",
    authorId := "ann" }

def attB : Attachment :=
  { id := "b1", filename := "b.bin", size := 50, mimeType := "bin",
    contentUrl := "u-b1", created := "t2", authorDisplayName := "Bob",
    authorId := "bob" }

def issueA : Issue :=
  { key := "P-1", projectKey := "P", projectName := "Proj",
    statusName := "Open", statusCategoryName := "To Do",
    statusCategoryKey := "new", updated := "t9", attachments := [attA] }

def issueB : Issue :=
  { key := "P-2", projectKey := "P", projectName := "Proj",
    statusName := "Open", statusCategoryName := "To Do",
    statusCategoryKey := "new", updated := "t9", attachments := [attB] }

def exCfg : ScanConfig := { batch_size := 1, checkpoint_interval := 1 }

def exJira : JiraModel :=
  { issues := [issueA, issueB], fetchFails := fun _ => false }

/-- Content fingerprints: distinct per attachment (distinct contents). -/
def exHash : Attachment → String := fun a => "h-" ++ a.id

/-- The uninterrupted run of the scan over `exJira`. -/
def exFresh : ScanRun := run_scan_fresh exCfg exJira exHash "scan1"

/-- The same scan cancelled right after its first checkpoint (which is written
after the page at offset 0 — the issue `P-1` — has been folded in). -/
def exInterrupted : LoopSt := run_scan_interrupted exCfg exJira exHash "scan1" 1

/-- Resuming the interrupted scan from its persisted storage. -/
def exResumed : Option ScanRun :=
  run_scan_resumed exCfg exJira exHash exInterrupted.storage

/-- Same issue stream, but the page fetch at offset 1 raises after retries. -/
def exJiraFail : JiraModel :=
  { issues := [issueA, issueB], fetchFails := fun n => decide (n = 1) }

/-- Fresh scan over `exJiraFail`: the loop processes the page at offset 0,
then breaks on the failed fetch at offset 1 and falls through to
`_finalize_scan`. -/
def exFailRun : ScanRun := run_scan_fresh exCfg exJiraFail exHash "scan2"

/-! ## Download pool (`DownloadManager`) -/

/-- Worker configuration (constructor arguments, lines 691-698). -/
structure DlConfig where
  maxFileSize : Nat
  useContentHash : Bool
deriving Repr, DecidableEq

/-- Oracles for the effects a worker performs.

`download a = some h`: the streamed download of `a` succeeds and
`StreamingHasher.hash_from_stream` over its chunks yields `h`;
`download a = none`: the request, the stream, or the hashing raises
(ChunkedEncodingError, Timeout, or any other exception — the three except
arms at lines 782-815 treat them identically).

`urlHashOutcome url = some h`: `StreamingHasher.hash_from_url(url)` returns
`h`; `none` models that call raising (its callers wrap it in `try/except`). -/
structure WorkerEnv where
  download : Attachment → Option String
  urlHashOutcome : String → Option String

/-- Outcome of one `_download_and_hash_single` call as seen by
`future.result()`: the function returned a tuple, returned `None`, or let an
exception escape. -/
inductive SingleOutcome where
  | raised
  | dropped
  | result (r : String × String × Attachment)
deriving Repr, DecidableEq

/-- `DownloadManager._download_and_hash_single` (lines 739-815), paired with
the list of content URLs for which a streaming download was attempted.

Oversize files (declared `size > max_file_size`, line 755) are answered by a
URL hash with no download; that `hash_from_url` call (line 761) is outside any
`try`, so its raising escapes.  Inside the `try`: with `use_content_hash` the
stream is downloaded and hashed, any raise falls back to the URL hash, and a
raise of the fallback returns `None`; without `use_content_hash` the URL hash
is used directly, and if it raises the except arm retries the same call,
which raises again, returning `None`. -/
def download_and_hash_single (cfg : DlConfig) (env : WorkerEnv)
    (attachment : Attachment) : SingleOutcome × List String :=
  if attachment.size > cfg.maxFileSize then
    match env.urlHashOutcome attachment.contentUrl with
    | some url_hash => (.result (attachment.id, url_hash, attachment), [])
    | none => (.raised, [])
  else if cfg.useContentHash then
    match env.download attachment with
    | some file_hash =>
      (.result (attachment.id, file_hash, attachment), [attachment.contentUrl])
    | none =>
      match env.urlHashOutcome attachment.contentUrl with
      | some url_hash =>
        (.result (attachment.id, url_hash, attachment), [attachment.contentUrl])
      | none => (.dropped, [attachment.contentUrl])
  else
    match env.urlHashOutcome attachment.contentUrl with
    | some file_hash => (.result (attachment.id, file_hash, attachment), [])
    | none => (.dropped, [])

/-- `DownloadManager.download_and_hash_batch` (lines 701-737): collect worker
results in submission order; on a raised worker (`future.result()` throwing)
retry `hash_from_url` at batch level (line 732) and drop the item if that also
raises; `None` results are skipped by the `if result` check (line 724). -/
def download_and_hash_batch (cfg : DlConfig) (env : WorkerEnv)
    (attachments : List Attachment) : List (String × String × Attachment) :=
  match attachments with
  | [] => []
  | a :: rest =>
    let tail := download_and_hash_batch cfg env rest
    match (download_and_hash_single cfg env a).1 with
    | .result r => r :: tail
    | .dropped => tail
    | .raised =>
      match env.urlHashOutcome a.contentUrl with
      | some url_hash => (a.id, url_hash, a) :: tail
      | none => tail

/-! ## Rate limiter (`RateLimiter`)

The source (lines 107-124) keeps a single float `last_request_time`, compares
`time.time() - last_request_time` against `min_interval = 1/R`, sleeps the
difference if positive, and then stores the post-sleep clock value.  Time is
modelled as ℚ on a logical clock: `now` is the wall time at which the call
starts, and the returned time is when the call completes (the admission
time).  There is no lock in the source. -/

structure RateLimiter where
  maxRequests : Nat
  minInterval : ℚ
  lastRequestTime : ℚ
deriving Repr

/-- `RateLimiter.__init__` (lines 110-113). -/
def mkRateLimiter (max_requests_per_second : Nat) : RateLimiter :=
  { maxRequests := max_requests_per_second,
    minInterval := 1 / (max_requests_per_second : ℚ),
    lastRequestTime := 0 }

/-- `RateLimiter.wait_if_needed` (lines 115-124) as an atomic (single-caller)
transition: if less than `min_interval` elapsed since `last_request_time`,
sleep the remainder; record the post-sleep clock. -/
def wait_if_needed (rl : RateLimiter) (now : ℚ) : RateLimiter × ℚ :=
  let time_since_last := now - rl.lastRequestTime
  if time_since_last < rl.minInterval then
    let wake := now + (rl.minInterval - time_since_last)
    ({ rl with lastRequestTime := wake }, wake)
  else
    ({ rl with lastRequestTime := now }, now)

/-- Admission times of a sequence of non-overlapping `wait_if_needed` calls,
the i-th starting at wall time `calls[i]`. -/
def admission_times (rl : RateLimiter) : List ℚ → List ℚ
  | [] => []
  | now :: rest =>
    (wait_if_needed rl now).2 ::
      admission_times (wait_if_needed rl now).1 rest

/-- Consecutive elements at least `δ` apart. -/
def SpacedBy (δ : ℚ) : List ℚ → Prop
  | [] => True
  | [_] => True
  | a :: b :: rest => a + δ ≤ b ∧ SpacedBy δ (b :: rest)

/-- Two threads running `wait_if_needed` concurrently on the same limiter,
both starting at wall time `now`, under the interleaving
`A reads last_request_time; B reads last_request_time; A sleeps and writes;
B sleeps and writes`.  The source holds no lock around the
read-compare-sleep-write sequence, so this interleaving is possible; each
thread computes its sleep from the stale value it read.  Returns the two
admission times. -/
def racy_pair_admission (rl : RateLimiter) (now : ℚ) : ℚ × ℚ :=
  let readA := now - rl.lastRequestTime
  let admissionA :=
    if readA < rl.minInterval then now + (rl.minInterval - readA) else now
  let readB := now - rl.lastRequestTime
  let admissionB :=
    if readB < rl.minInterval then now + (rl.minInterval - readB) else now
  (admissionA, admissionB)

/-! ## Specification-side definitions used by the theorems -/

/-- Number of times a fingerprint has been sighted, as recorded by the
catalog: a group holds its canonical sighting plus `duplicate_count` extra
ones. -/
def sightings (g : Groups) (h : String) : Nat :=
  match lookupA h g with
  | none => 0
  | some group => group.duplicate_count + 1

/-- Well-formedness of the duplicate catalog relative to a size assignment
`sz` (the size every attachment with a given fingerprint declares): unique
fingerprints, group arithmetic, the 20-location cap, and a unique canonical
location at the head of the list. -/
def group_catalog_wf (sz : String → Nat) (g : Groups) : Prop :=
  (g.map Prod.fst).Nodup ∧
  ∀ p ∈ g,
    p.2.file_size = sz p.1 ∧
    p.2.total_wasted_space = p.2.file_size * p.2.duplicate_count ∧
    p.2.locations.length ≤ 20 ∧
    ∃ loc locs, p.2.locations = loc :: locs ∧ loc.is_canonical = true ∧
      ∀ l ∈ locs, l.is_canonical = false

/-! ## Concrete witness data -/

/-- A context for standalone result streams. -/
def wCtx : IssueCtx :=
  { issue_key := "W-1", project_key := "W", project_name := "WProj",
    status := "Open", status_category := "To Do",
    status_category_key := "new", issue_last_updated := "t" }

def wAtt1 : Attachment :=
  { id := "w1", filename := "w1.bin", size := 10, mimeType := "bin",
    contentUrl := "u-w1", created := "t", authorDisplayName := "W",
    authorId := "w" }

def wAtt2 : Attachment :=
  { id := "w2", filename := "w2.bin", size := 10, mimeType := "bin",
    contentUrl := "u-w2", created := "t", authorDisplayName := "W",
    authorId := "w" }

/-- Two sightings of one fingerprint, both of size 10. -/
def wRs : List AttachmentResult :=
  [ { att := wAtt1, file_hash := "hw", ctx := wCtx },
    { att := wAtt2, file_hash := "hw", ctx := wCtx } ]

/-- Every fingerprint in `wRs` declares size 10. -/
def wSz : String → Nat := fun _ => 10

/-- Stream A for the file-type counterexample: two distinct contents, same
extension, same sizes — no duplicates. -/
def c7rsA : List AttachmentResult :=
  [ { att := wAtt1, file_hash := "h1", ctx := wCtx },
    { att := wAtt2, file_hash := "h2", ctx := wCtx } ]

/-- Stream B: identical to `c7rsA` except the second attachment's bytes equal
the first's (same fingerprint) — one duplicate. -/
def c7rsB : List AttachmentResult :=
  [ { att := wAtt1, file_hash := "h1", ctx := wCtx },
    { att := wAtt2, file_hash := "h1", ctx := wCtx } ]

/-- Download-pool config for the worker witnesses: 1000-byte cap, content
hashing on. -/
def dlCfgW : DlConfig := { maxFileSize := 1000, useContentHash := true }

/-- An attachment declaring one byte more than the cap. -/
def attBig : Attachment :=
  { id := "big", filename := "big.iso", size := 1001, mimeType := "iso",
    contentUrl := "u-big", created := "t", authorDisplayName := "B",
    authorId := "b" }

/-- A small attachment whose download succeeds. -/
def attOk : Attachment :=
  { id := "ok", filename := "ok.bin", size := 10, mimeType := "bin",
    contentUrl := "u-ok", created := "t", authorDisplayName := "O",
    authorId := "o" }

/-- A small attachment whose download raises. -/
def attBad : Attachment :=
  { id := "bad", filename := "bad.bin", size := 10, mimeType := "bin",
    contentUrl := "u-bad", created := "t", authorDisplayName := "B",
    authorId := "b" }

/-- Worker oracle: the download of `attBad` raises, all others succeed with a
content hash; `hash_from_url` always succeeds. -/
def envW : WorkerEnv :=
  { download := fun a => if a.id = "bad" then none else some ("c-" ++ a.id),
    urlHashOutcome := fun url => some ("uh-" ++ url) }

/-! ## Helper lemmas about the dict model -/

theorem lookupA_append_some {V : Type} {k : String} {l₁ : List (String × V)}
    (l₂ : List (String × V)) {v : V} (h : lookupA k l₁ = some v) :
    lookupA k (l₁ ++ l₂) = some v := by
  induction l₁ with
  | nil => simp [lookupA] at h
  | cons p rest ih =>
    by_cases hp : p.1 = k
    · simp_all [lookupA]
    · simp only [lookupA, hp, if_neg, List.cons_append] at h ⊢
      exact ih h

theorem lookupA_append_none {V : Type} {k : String} {l₁ : List (String × V)}
    (l₂ : List (String × V)) (h : lookupA k l₁ = none) :
    lookupA k (l₁ ++ l₂) = lookupA k l₂ := by
  induction l₁ with
  | nil => simp [lookupA]
  | cons p rest ih =>
    by_cases hp : p.1 = k
    · simp_all [lookupA]
    · simp only [lookupA, hp, if_neg, List.cons_append] at h ⊢
      exact ih h

theorem lookupA_updateA_self {V : Type} (k : String) (u : V → V)
    (l : List (String × V)) :
    lookupA k (updateA k u l) = (lookupA k l).map u := by
  induction l with
  | nil => simp [lookupA, updateA]
  | cons p rest ih =>
    by_cases hp : p.1 = k
    · simp [lookupA, updateA, hp]
    · simp [lookupA, updateA, hp, ih]

theorem lookupA_updateA_ne {V : Type} {k' k : String} (hne : k' ≠ k) (u : V → V)
    (l : List (String × V)) :
    lookupA k' (updateA k u l) = lookupA k' l := by
  have hkk : ¬ k = k' := fun h => hne h.symm
  induction l with
  | nil => simp [updateA]
  | cons p rest ih =>
    by_cases hp : p.1 = k
    · simp [lookupA, updateA, hp, hkk]
    · by_cases hp' : p.1 = k'
      · simp [lookupA, updateA, hp, hp', hne]
      · simp [lookupA, updateA, hp, hp', ih]

theorem keys_updateA {V : Type} (k : String) (u : V → V) (l : List (String × V)) :
    (updateA k u l).map Prod.fst = l.map Prod.fst := by
  induction l with
  | nil => simp [updateA]
  | cons p rest ih =>
    by_cases hp : p.1 = k
    · simp [updateA, hp]
    · simp [updateA, hp, ih]

theorem length_updateA {V : Type} (k : String) (u : V → V) (l : List (String × V)) :
    (updateA k u l).length = l.length := by
  have := keys_updateA k u l
  calc (updateA k u l).length = ((updateA k u l).map Prod.fst).length := by simp
    _ = (l.map Prod.fst).length := by rw [this]
    _ = l.length := by simp

theorem mem_updateA {V : Type} {k : String} {u : V → V} {l : List (String × V)}
    {p : String × V} (h : p ∈ updateA k u l) :
    p ∈ l ∨ ∃ v, (k, v) ∈ l ∧ p = (k, u v) := by
  induction l with
  | nil => simp [updateA] at h
  | cons q rest ih =>
    simp only [updateA] at h
    by_cases hq : q.1 = k
    · rw [if_pos hq] at h
      rcases List.mem_cons.mp h with h | h
      · right
        refine ⟨q.2, ?_, ?_⟩
        · rw [← hq]; simp
        · rw [h, hq]
      · left; exact List.mem_cons_of_mem _ h
    · rw [if_neg hq] at h
      rcases List.mem_cons.mp h with h | h
      · left; rw [h]; exact List.mem_cons_self _ _
      · rcases ih h with h' | ⟨v, hv, hp⟩
        · left; exact List.mem_cons_of_mem _ h'
        · right; exact ⟨v, List.mem_cons_of_mem _ hv, hp⟩

theorem lookupA_eq_none_iff {V : Type} (k : String) (l : List (String × V)) :
    lookupA k l = none ↔ k ∉ l.map Prod.fst := by
  induction l with
  | nil => simp [lookupA]
  | cons p rest ih =>
    by_cases hp : p.1 = k
    · simp [lookupA, hp]
    · have h1 : ¬ k = p.1 := fun h => hp h.symm
      simp [lookupA, hp, ih, h1]

theorem lookupA_of_nodup_mem {V : Type} {l : List (String × V)}
    (hnd : (l.map Prod.fst).Nodup) {p : String × V} (hp : p ∈ l) :
    lookupA p.1 l = some p.2 := by
  induction l with
  | nil => simp at hp
  | cons q rest ih =>
    rw [List.map_cons, List.nodup_cons] at hnd
    rcases List.mem_cons.mp hp with h | h
    · rw [h]
      simp [lookupA]
    · by_cases hq : q.1 = p.1
      · exfalso
        apply hnd.1
        rw [hq]
        exact List.mem_map.mpr ⟨p, h, rfl⟩
      · simp only [lookupA, hq, if_neg]
        exact ih hnd.2 h

theorem sumBy_append {V : Type} (f : V → Nat) (l₁ l₂ : List (String × V)) :
    sumBy f (l₁ ++ l₂) = sumBy f l₁ + sumBy f l₂ := by
  simp [sumBy]

theorem sumBy_updateA {V : Type} (f : V → Nat) {k : String} (u : V → V)
    {l : List (String × V)} {v : V} (h : lookupA k l = some v) :
    sumBy f (updateA k u l) + f v = sumBy f l + f (u v) := by
  induction l with
  | nil => simp [lookupA] at h
  | cons p rest ih =>
    simp only [lookupA] at h
    by_cases hp : p.1 = k
    · rw [if_pos hp, Option.some_inj] at h
      subst h
      simp only [updateA, if_pos hp, sumBy, List.map_cons, List.sum_cons]
      omega
    · rw [if_neg hp] at h
      have := ih h
      simp only [updateA, if_neg hp, sumBy, List.map_cons, List.sum_cons] at this ⊢
      omega

theorem lookupA_single {V : Type} (k : String) (v : V) :
    lookupA k [(k, v)] = some v := by
  simp [lookupA]

theorem lookupA_single_ne {V : Type} {k k' : String} (h : k' ≠ k) (v : V) :
    lookupA k' [(k, v)] = none := by
  have : ¬ k = k' := fun hk => h hk.symm
  simp [lookupA, this]

theorem lookupA_ensureA {V : Type} (k : String) (d : V) (l : List (String × V)) :
    lookupA k (ensureA k d l) =
      some (match lookupA k l with | some v => v | none => d) := by
  rcases hl : lookupA k l with _ | v
  · simp only [ensureA, hl]
    rw [lookupA_append_none _ hl, lookupA_single]
  · simp only [ensureA, hl]

theorem lookupA_ensureA_ne {V : Type} {k' k : String} (h : k' ≠ k) (d : V)
    (l : List (String × V)) :
    lookupA k' (ensureA k d l) = lookupA k' l := by
  rcases hl : lookupA k l with _ | v
  · simp only [ensureA, hl]
    rcases hl' : lookupA k' l with _ | w
    · rw [lookupA_append_none _ hl', lookupA_single_ne h]
    · rw [lookupA_append_some _ hl']
  · simp only [ensureA, hl]

theorem sumBy_ensureA {V : Type} (f : V → Nat) (k : String) {d : V}
    (hd : f d = 0) (l : List (String × V)) :
    sumBy f (ensureA k d l) = sumBy f l := by
  rcases hl : lookupA k l with _ | v
  · simp [ensureA, hl, sumBy_append, sumBy, hd]
  · simp [ensureA, hl]

/-- Sum of a projection after a create-if-missing-then-update step, when the
update adds a fixed amount `c` to the projection and the fresh entry
contributes nothing. -/
theorem sumBy_ensure_update {V : Type} (f : V → Nat) (k : String) {d : V}
    (hd : f d = 0) (u : V → V) {c : Nat} (hu : ∀ v, f (u v) = f v + c)
    (l : List (String × V)) :
    sumBy f (updateA k u (ensureA k d l)) = sumBy f l + c := by
  have hv := lookupA_ensureA k d l
  have hsum := sumBy_updateA f u hv
  rw [sumBy_ensureA f k hd, hu] at hsum
  omega

/-! ## Unfolding lemmas for the classification step -/

theorem classify_step_of_mem {r : AttachmentResult} {g : Groups}
    {v : DuplicateGroup} (hl : lookupA r.file_hash g = some v) (s : ScanStats) :
    classify_step r g s =
      (updateA r.file_hash (dup_group_update r) g,
       { s with duplicate_files := s.duplicate_files + 1,
                duplicate_size := s.duplicate_size + r.att.size,
                total_files := s.total_files + 1,
                total_size := s.total_size + r.att.size }) := by
  simp [classify_step, hl]

theorem classify_step_of_new {r : AttachmentResult} {g : Groups}
    (hl : lookupA r.file_hash g = none) (s : ScanStats) :
    classify_step r g s =
      (g ++ [(r.file_hash, mk_group r)],
       { s with canonical_files := s.canonical_files + 1,
                total_files := s.total_files + 1,
                total_size := s.total_size + r.att.size }) := by
  simp [classify_step, hl]

theorem process_attachment_result_fst (r : AttachmentResult) (g : Groups)
    (s : ScanStats) :
    (process_attachment_result r g s).1 = (classify_step r g s).1 := rfl

theorem process_attachment_result_scalars (r : AttachmentResult) (g : Groups)
    (s : ScanStats) :
    (process_attachment_result r g s).2.total_files
        = (classify_step r g s).2.total_files ∧
    (process_attachment_result r g s).2.total_size
        = (classify_step r g s).2.total_size ∧
    (process_attachment_result r g s).2.canonical_files
        = (classify_step r g s).2.canonical_files ∧
    (process_attachment_result r g s).2.duplicate_files
        = (classify_step r g s).2.duplicate_files ∧
    (process_attachment_result r g s).2.duplicate_size
        = (classify_step r g s).2.duplicate_size :=
  ⟨rfl, rfl, rfl, rfl, rfl⟩

theorem process_attachment_result_project_stats (r : AttachmentResult)
    (g : Groups) (s : ScanStats) :
    (process_attachment_result r g s).2.project_stats
      = project_stats_after r (classify_step r g s).1
          (classify_step r g s).2.project_stats := rfl

theorem process_attachment_result_file_type_stats (r : AttachmentResult)
    (g : Groups) (s : ScanStats) :
    (process_attachment_result r g s).2.file_type_stats
      = file_type_stats_after r (get_file_extension r.att.filename)
          (classify_step r g s).2.file_type_stats := rfl

theorem classify_step_project_stats (r : AttachmentResult) (g : Groups)
    (s : ScanStats) :
    (classify_step r g s).2.project_stats = s.project_stats := by
  rcases hl : lookupA r.file_hash g with _ | v
  · rw [classify_step_of_new hl]
  · rw [classify_step_of_mem hl]

theorem classify_step_file_type_stats (r : AttachmentResult) (g : Groups)
    (s : ScanStats) :
    (classify_step r g s).2.file_type_stats = s.file_type_stats := by
  rcases hl : lookupA r.file_hash g with _ | v
  · rw [classify_step_of_new hl]
  · rw [classify_step_of_mem hl]

/-- Preservation of an invariant `P` along `process_results`, for result
streams whose elements satisfy `Q`. -/
theorem process_results_inv {Q : AttachmentResult → Prop}
    {P : Groups → ScanStats → Prop}
    (hstep : ∀ r g s, Q r → P g s →
      P (process_attachment_result r g s).1 (process_attachment_result r g s).2) :
    ∀ (rs : List AttachmentResult) (g : Groups) (s : ScanStats),
      (∀ r ∈ rs, Q r) → P g s →
      P (process_results rs g s).1 (process_results rs g s).2 := by
  intro rs
  induction rs with
  | nil =>
    intro g s _ h
    simpa [process_results] using h
  | cons r rest ih =>
    intro g s hq h
    simp only [process_results]
    exact ih _ _ (fun x hx => hq x (List.mem_cons_of_mem _ hx))
      (hstep r g s (hq r (List.mem_cons_self _ _)) h)

/-! ## Claim C1 -/

/-- Claim C1 (refuted; code bug).  The claim says a scan interrupted once at a
checkpoint boundary and then resumed yields the same `(scan_stats,
duplicate_groups)` as the uninterrupted run.  On the two-issue stream `exJira`
the uninterrupted run ends with 2 files and no duplicates, while the run
cancelled after its first checkpoint and resumed ends with 3 files and one
duplicate: `_save_progress` persists `last_start_at = start_at`, the offset of
the page *just processed* (line 972, before the advance at line 989), and
`scan()` resumes *at* that offset (line 921), so the resumed run folds the
page at offset 0 — issue `P-1` — into the catalog a second time. -/
theorem C1_resume_not_idempotent :
    exFresh.stats.total_files = 2 ∧
    exFresh.stats.duplicate_files = 0 ∧
    exResumed.map (fun run => run.stats.total_files) = some 3 ∧
    exResumed.map (fun run => run.stats.duplicate_files) = some 1 ∧
    exResumed.map (fun run => (run.stats, run.groups)) ≠
      some (exFresh.stats, exFresh.groups) := by decide

/-! ## Claim C2 -/

/-- Claim C2 (refuted; code bug).  The claim says every checkpoint written in
the main loop persists the offset of the next *unprocessed* page.  In the run
`exInterrupted` (page size 1, checkpoint every issue, cancelled after the
first checkpoint) the persisted checkpoint offset is 0, yet the page at
offset 0 is already folded in: the persisted stats count its one attachment
and `processed_issues = 1`, so the first unprocessed page starts at offset
1 = `batch_size`, not 0.  Resuming from this checkpoint therefore processes
page 0 twice. -/
theorem C2_checkpoint_offset_is_processed_page :
    exInterrupted.storage.checkpointRow =
      some { last_issue_key := "", last_start_at := 0 } ∧
    exInterrupted.storage.statsRow.map (fun s => s.total_files) = some 1 ∧
    exInterrupted.storage.scanRow.map (fun s => s.processed_issues) = some 1 ∧
    exCfg.batch_size = 1 := by decide

/-! ## Claim C3 -/

/-- Claim C3 (refuted; code bug).  The claim says that when a page fetch
raises during the main loop the scan checkpoints, aborts the loop, and stays
resumable with persisted status `'running'`.  In `exFailRun` the fetch at
offset 1 raises, the loop `break`s (line 955) — and control falls through to
`_finalize_scan` (line 1006), which sets and persists status `'completed'`
even though only 1 of 2 issues was processed; `find_incomplete_scans` no
longer lists the scan, so it is not resumable. -/
theorem C3_fetch_failure_marks_scan_completed :
    exFailRun.state.status = "completed" ∧
    exFailRun.storage.scanRow.map (fun s => s.status) = some "completed" ∧
    find_incomplete_scans exFailRun.storage = [] ∧
    exFailRun.state.processed_issues = 1 ∧
    exFailRun.state.total_issues = 2 := by decide

/-! ## Claim C5 -/

/-- One step of the statistics-conservation invariant. -/
theorem stats_conservation_step (r : AttachmentResult) (g : Groups)
    (s : ScanStats)
    (h1 : s.total_files = sumBy (fun gr => 1 + gr.duplicate_count) g)
    (h2 : s.duplicate_size = sumBy (fun gr => gr.total_wasted_space) g)
    (h3 : s.canonical_files = g.length) :
    (process_attachment_result r g s).2.total_files
      = sumBy (fun gr => 1 + gr.duplicate_count)
          (process_attachment_result r g s).1 ∧
    (process_attachment_result r g s).2.duplicate_size
      = sumBy (fun gr => gr.total_wasted_space)
          (process_attachment_result r g s).1 ∧
    (process_attachment_result r g s).2.canonical_files
      = (process_attachment_result r g s).1.length := by
  obtain ⟨e1, e2, e3, e4, e5⟩ := process_attachment_result_scalars r g s
  rw [process_attachment_result_fst, e1, e3, e5]
  rcases hl : lookupA r.file_hash g with _ | v
  · rw [classify_step_of_new hl]
    refine ⟨?_, ?_, ?_⟩
    · rw [sumBy_append]
      have hmk : sumBy (fun gr => 1 + gr.duplicate_count)
          [(r.file_hash, mk_group r)] = 1 := rfl
      rw [hmk]
      show s.total_files + 1 = sumBy (fun gr => 1 + gr.duplicate_count) g + 1
      omega
    · rw [sumBy_append]
      have hmk : sumBy (fun gr => gr.total_wasted_space)
          [(r.file_hash, mk_group r)] = 0 := rfl
      rw [hmk]
      show s.duplicate_size = sumBy (fun gr => gr.total_wasted_space) g + 0
      omega
    · show s.canonical_files + 1 = (g ++ [(r.file_hash, mk_group r)]).length
      rw [List.length_append]
      simp [h3]
  · rw [classify_step_of_mem hl]
    refine ⟨?_, ?_, ?_⟩
    · have h : sumBy (fun gr => 1 + gr.duplicate_count)
            (updateA r.file_hash (dup_group_update r) g)
          + (1 + v.duplicate_count)
          = sumBy (fun gr => 1 + gr.duplicate_count) g
          + (1 + (v.duplicate_count + 1)) :=
        sumBy_updateA _ _ hl
      show s.total_files + 1
        = sumBy (fun gr => 1 + gr.duplicate_count)
            (updateA r.file_hash (dup_group_update r) g)
      omega
    · have h : sumBy (fun gr => gr.total_wasted_space)
            (updateA r.file_hash (dup_group_update r) g)
          + v.total_wasted_space
          = sumBy (fun gr => gr.total_wasted_space) g
          + (v.total_wasted_space + r.att.size) :=
        sumBy_updateA _ _ hl
      show s.duplicate_size + r.att.size
        = sumBy (fun gr => gr.total_wasted_space)
            (updateA r.file_hash (dup_group_update r) g)
      omega
    · show s.canonical_files
        = (updateA r.file_hash (dup_group_update r) g).length
      rw [length_updateA]
      exact h3

/-- Claim C5 (confirmed).  After any sequence of processed attachment results
(and hence at scan completion), `total_files` equals the sum over groups of
`1 + duplicate_count`, `duplicate_size` equals the sum of
`total_wasted_space`, and `canonical_files` equals the number of groups. -/
theorem C5_statistics_conservation (rs : List AttachmentResult) :
    (process_results rs [] initialize_stats).2.total_files
      = sumBy (fun gr => 1 + gr.duplicate_count)
          (process_results rs [] initialize_stats).1 ∧
    (process_results rs [] initialize_stats).2.duplicate_size
      = sumBy (fun gr => gr.total_wasted_space)
          (process_results rs [] initialize_stats).1 ∧
    (process_results rs [] initialize_stats).2.canonical_files
      = (process_results rs [] initialize_stats).1.length :=
  process_results_inv (Q := fun _ => True)
    (P := fun g s =>
      s.total_files = sumBy (fun gr => 1 + gr.duplicate_count) g ∧
      s.duplicate_size = sumBy (fun gr => gr.total_wasted_space) g ∧
      s.canonical_files = g.length)
    (fun r g s _ h => stats_conservation_step r g s h.1 h.2.1 h.2.2)
    rs [] initialize_stats (fun _ _ => trivial)
    ⟨rfl, rfl, rfl⟩

/-! ## Claim C6 -/

theorem classify_step_fst_of_mem {r : AttachmentResult} {g : Groups}
    {v : DuplicateGroup} (hl : lookupA r.file_hash g = some v) (s : ScanStats) :
    (classify_step r g s).1 = updateA r.file_hash (dup_group_update r) g := by
  rw [classify_step_of_mem hl]

theorem classify_step_fst_of_new {r : AttachmentResult} {g : Groups}
    (hl : lookupA r.file_hash g = none) (s : ScanStats) :
    (classify_step r g s).1 = g ++ [(r.file_hash, mk_group r)] := by
  rw [classify_step_of_new hl]

theorem classify_step_dup_fields_of_mem {r : AttachmentResult} {g : Groups}
    {v : DuplicateGroup} (hl : lookupA r.file_hash g = some v) (s : ScanStats) :
    (classify_step r g s).2.duplicate_files = s.duplicate_files + 1 ∧
    (classify_step r g s).2.duplicate_size = s.duplicate_size + r.att.size := by
  rw [classify_step_of_mem hl]
  exact ⟨rfl, rfl⟩

theorem classify_step_dup_fields_of_new {r : AttachmentResult} {g : Groups}
    (hl : lookupA r.file_hash g = none) (s : ScanStats) :
    (classify_step r g s).2.duplicate_files = s.duplicate_files ∧
    (classify_step r g s).2.duplicate_size = s.duplicate_size := by
  rw [classify_step_of_new hl]
  exact ⟨rfl, rfl⟩

/-- After a duplicate classification, the line-1240 catalog check succeeds:
the group it just updated has `duplicate_count ≥ 1`. -/
theorem is_dup_after_of_mem {r : AttachmentResult} {g : Groups}
    {v : DuplicateGroup} (hl : lookupA r.file_hash g = some v) :
    is_dup_after r (updateA r.file_hash (dup_group_update r) g) = true := by
  unfold is_dup_after
  rw [lookupA_updateA_self, hl]
  simp [dup_group_update]

/-- After a canonical classification, the line-1240 catalog check fails: the
freshly created group has `duplicate_count = 0`. -/
theorem is_dup_after_of_new {r : AttachmentResult} {g : Groups}
    (hl : lookupA r.file_hash g = none) :
    is_dup_after r (g ++ [(r.file_hash, mk_group r)]) = false := by
  unfold is_dup_after
  rw [lookupA_append_none _ hl, lookupA_single]
  simp [mk_group]

theorem project_entry_update_dc (r : AttachmentResult) (b : Bool)
    (ps : ProjectStats) :
    (project_entry_update r b ps).duplicate_count
      = ps.duplicate_count + (if b then 1 else 0) := by
  cases b <;> simp [project_entry_update]

theorem project_entry_update_ds (r : AttachmentResult) (b : Bool)
    (ps : ProjectStats) :
    (project_entry_update r b ps).duplicate_size
      = ps.duplicate_size + (if b then r.att.size else 0) := by
  cases b <;> simp [project_entry_update]

/-- One step of the project-counter consistency invariant: the per-project
`duplicate_*` counters move in lockstep with the global ones. -/
theorem project_counters_step (r : AttachmentResult) (g : Groups)
    (s : ScanStats)
    (h1 : sumBy (fun ps => ps.duplicate_count) s.project_stats
            = s.duplicate_files)
    (h2 : sumBy (fun ps => ps.duplicate_size) s.project_stats
            = s.duplicate_size) :
    sumBy (fun ps => ps.duplicate_count)
        (process_attachment_result r g s).2.project_stats
      = (process_attachment_result r g s).2.duplicate_files ∧
    sumBy (fun ps => ps.duplicate_size)
        (process_attachment_result r g s).2.project_stats
      = (process_attachment_result r g s).2.duplicate_size := by
  obtain ⟨e1, e2, e3, e4, e5⟩ := process_attachment_result_scalars r g s
  rw [process_attachment_result_project_stats, e4, e5,
      classify_step_project_stats]
  rcases hl : lookupA r.file_hash g with _ | v
  · rw [classify_step_fst_of_new hl, (classify_step_dup_fields_of_new hl s).1,
        (classify_step_dup_fields_of_new hl s).2]
    unfold project_stats_after
    rw [is_dup_after_of_new hl]
    have hdc : ∀ w : ProjectStats,
        (project_entry_update r false w).duplicate_count
          = w.duplicate_count + 0 := by
      intro w
      rw [project_entry_update_dc]
      simp
    have hds : ∀ w : ProjectStats,
        (project_entry_update r false w).duplicate_size
          = w.duplicate_size + 0 := by
      intro w
      rw [project_entry_update_ds]
      simp
    constructor
    · rw [sumBy_ensure_update (fun ps => ps.duplicate_count)
            r.ctx.project_key rfl (project_entry_update r false) hdc
            s.project_stats]
      omega
    · rw [sumBy_ensure_update (fun ps => ps.duplicate_size)
            r.ctx.project_key rfl (project_entry_update r false) hds
            s.project_stats]
      omega
  · rw [classify_step_fst_of_mem hl, (classify_step_dup_fields_of_mem hl s).1,
        (classify_step_dup_fields_of_mem hl s).2]
    unfold project_stats_after
    rw [is_dup_after_of_mem hl]
    have hdc : ∀ w : ProjectStats,
        (project_entry_update r true w).duplicate_count
          = w.duplicate_count + 1 := by
      intro w
      rw [project_entry_update_dc]
      simp
    have hds : ∀ w : ProjectStats,
        (project_entry_update r true w).duplicate_size
          = w.duplicate_size + r.att.size := by
      intro w
      rw [project_entry_update_ds]
      simp
    constructor
    · rw [sumBy_ensure_update (fun ps => ps.duplicate_count)
            r.ctx.project_key rfl (project_entry_update r true) hdc
            s.project_stats]
      omega
    · rw [sumBy_ensure_update (fun ps => ps.duplicate_size)
            r.ctx.project_key rfl (project_entry_update r true) hds
            s.project_stats]
      omega

theorem total_files_step (r : AttachmentResult) (g : Groups) (s : ScanStats) :
    (process_attachment_result r g s).2.total_files = s.total_files + 1 := by
  obtain ⟨e1, _, _, _, _⟩ := process_attachment_result_scalars r g s
  rw [e1]
  rcases hl : lookupA r.file_hash g with _ | v
  · rw [classify_step_of_new hl]
  · rw [classify_step_of_mem hl]

/-- Each incoming result is classified exactly once: `total_files` counts the
processed results. -/
theorem total_files_process_results (rs : List AttachmentResult) :
    ∀ (g : Groups) (s : ScanStats),
      (process_results rs g s).2.total_files = s.total_files + rs.length := by
  induction rs with
  | nil =>
    intro g s
    simp [process_results]
  | cons r rest ih =>
    intro g s
    simp only [process_results]
    rw [ih, total_files_step]
    simp only [List.length_cons]
    omega

/-- Claim C6 (confirmed).  The classification rule fires exactly once per
attachment result (`total_files` equals the number of results), and despite
the order-dependent `duplicate_count > 0` check against the same-run catalog,
the per-project duplicate counters stay consistent with the global ones: the
sum over projects of `duplicate_count` equals `scan_stats.duplicate_files`
and the sum of per-project `duplicate_size` equals
`scan_stats.duplicate_size`. -/
theorem C6_project_counters_consistent (rs : List AttachmentResult) :
    (process_results rs [] initialize_stats).2.total_files = rs.length ∧
    sumBy (fun ps => ps.duplicate_count)
        (process_results rs [] initialize_stats).2.project_stats
      = (process_results rs [] initialize_stats).2.duplicate_files ∧
    sumBy (fun ps => ps.duplicate_size)
        (process_results rs [] initialize_stats).2.project_stats
      = (process_results rs [] initialize_stats).2.duplicate_size := by
  refine ⟨?_, ?_⟩
  · rw [total_files_process_results]
    simp [initialize_stats]
  · exact process_results_inv (Q := fun _ => True)
      (P := fun g s =>
        sumBy (fun ps => ps.duplicate_count) s.project_stats
            = s.duplicate_files ∧
        sumBy (fun ps => ps.duplicate_size) s.project_stats
            = s.duplicate_size)
      (fun r g s _ h => project_counters_step r g s h.1 h.2)
      rs [] initialize_stats (fun _ _ => trivial) ⟨rfl, rfl⟩

/-! ## Claim C4 -/

/-- One classification step adds exactly one sighting of the incoming
fingerprint and leaves all other counts unchanged. -/
theorem sightings_step (r : AttachmentResult) (g : Groups) (s : ScanStats)
    (h : String) :
    sightings (process_attachment_result r g s).1 h
      = sightings g h + (if r.file_hash = h then 1 else 0) := by
  rw [process_attachment_result_fst]
  rcases hl : lookupA r.file_hash g with _ | v
  · rw [classify_step_fst_of_new hl]
    by_cases hh : r.file_hash = h
    · subst hh
      unfold sightings
      rw [lookupA_append_none _ hl, lookupA_single, hl]
      simp [mk_group]
    · unfold sightings
      rcases hg : lookupA h g with _ | w
      · rw [lookupA_append_none _ hg,
            lookupA_single_ne (fun hk => hh hk.symm)]
        simp [hh]
      · rw [lookupA_append_some _ hg]
        simp [hh]
  · rw [classify_step_fst_of_mem hl]
    by_cases hh : r.file_hash = h
    · subst hh
      unfold sightings
      rw [lookupA_updateA_self, hl]
      simp [dup_group_update]
    · unfold sightings
      rw [lookupA_updateA_ne (fun hk => hh hk.symm)]
      simp [hh]

/-- Folding a result stream adds one sighting per stream element with the
given fingerprint. -/
theorem sightings_process_results (rs : List AttachmentResult) :
    ∀ (g : Groups) (s : ScanStats) (h : String),
      sightings (process_results rs g s).1 h
        = sightings g h + rs.countP (fun r => decide (r.file_hash = h)) := by
  induction rs with
  | nil =>
    intro g s h
    simp [process_results]
  | cons r rest ih =>
    intro g s h
    simp only [process_results]
    rw [ih, sightings_step, List.countP_cons]
    by_cases hh : r.file_hash = h
    all_goals simp [hh]
    all_goals omega

/-- One classification step preserves catalog well-formedness, provided the
incoming result declares the size assigned to its fingerprint. -/
theorem group_catalog_wf_step (sz : String → Nat) (r : AttachmentResult)
    (g : Groups) (s : ScanStats) (hq : r.att.size = sz r.file_hash)
    (hw : group_catalog_wf sz g) :
    group_catalog_wf sz (process_attachment_result r g s).1 := by
  obtain ⟨hnd, hmem⟩ := hw
  rw [process_attachment_result_fst]
  rcases hl : lookupA r.file_hash g with _ | v
  · rw [classify_step_fst_of_new hl]
    constructor
    · rw [List.map_append]
      rw [List.nodup_append]
      refine ⟨hnd, List.nodup_singleton _, ?_⟩
      intro a ha hb
      simp only [List.map_cons, List.map_nil, List.mem_singleton] at hb
      subst hb
      exact (lookupA_eq_none_iff _ _).mp hl ha
    · intro p hp
      rcases List.mem_append.mp hp with hp | hp
      · exact hmem p hp
      · simp only [List.mem_singleton] at hp
        subst hp
        refine ⟨hq, rfl, by simp [mk_group], ?_⟩
        exact ⟨mk_location r true, [], rfl, rfl, by simp⟩
  · rw [classify_step_fst_of_mem hl]
    constructor
    · rw [keys_updateA]
      exact hnd
    · intro p hp
      rcases mem_updateA hp with hp' | ⟨w, hw', hp'⟩
      · exact hmem p hp'
      · subst hp'
        obtain ⟨hfs, hws, hlen, loc, locs, hloc, hcan, hrest⟩ :=
          hmem (r.file_hash, w) hw'
        refine ⟨hfs, ?_, ?_, ?_⟩
        · show w.total_wasted_space + r.att.size
            = w.file_size * (w.duplicate_count + 1)
          rw [hws, hq, ← hfs, Nat.mul_succ]
        · show (if w.locations.length < 20 then
              w.locations ++ [mk_location r false] else w.locations).length ≤ 20
          by_cases h20 : w.locations.length < 20
          · rw [if_pos h20, List.length_append]
            simp only [List.length_singleton]
            omega
          · rw [if_neg h20]
            exact hlen
        · show ∃ loc2 locs2,
            (if w.locations.length < 20 then
              w.locations ++ [mk_location r false] else w.locations)
              = loc2 :: locs2 ∧ loc2.is_canonical = true ∧
              ∀ l ∈ locs2, l.is_canonical = false
          by_cases h20 : w.locations.length < 20
          · refine ⟨loc, locs ++ [mk_location r false], ?_, hcan, ?_⟩
            · rw [if_pos h20, hloc]
              rfl
            · intro l hlmem
              rcases List.mem_append.mp hlmem with hx | hx
              · exact hrest l hx
              · simp only [List.mem_singleton] at hx
                subst hx
                rfl
          · exact ⟨loc, locs, by rw [if_neg h20]; exact hloc, hcan, hrest⟩

/-- Claim C4 (confirmed).  For every duplicate group of a scan over a result
stream whose equal fingerprints carry equal declared sizes (`sz` assigns each
fingerprint its size — true of content fingerprints of consistent metadata):
`total_wasted_space = file_size × duplicate_count`;
`duplicate_count + 1` equals the number of sightings of the fingerprint in
the stream (hence `duplicate_count = max(0, sightings − 1)` and the
fingerprint was sighted at least once); at most 20 locations are stored; and
the location list starts with its unique canonical location, the first-seen
occurrence. -/
theorem C4_group_arithmetic (sz : String → Nat) (rs : List AttachmentResult)
    (hsz : ∀ r ∈ rs, r.att.size = sz r.file_hash) :
    ∀ p ∈ (process_results rs [] initialize_stats).1,
      p.2.total_wasted_space = p.2.file_size * p.2.duplicate_count ∧
      p.2.duplicate_count + 1
        = rs.countP (fun r => decide (r.file_hash = p.1)) ∧
      p.2.locations.length ≤ 20 ∧
      ∃ loc locs, p.2.locations = loc :: locs ∧ loc.is_canonical = true ∧
        ∀ l ∈ locs, l.is_canonical = false := by
  have hwf : group_catalog_wf sz (process_results rs [] initialize_stats).1 :=
    process_results_inv (Q := fun r => r.att.size = sz r.file_hash)
      (P := fun g _ => group_catalog_wf sz g)
      (fun r g s hq hw => group_catalog_wf_step sz r g s hq hw)
      rs [] initialize_stats hsz ⟨List.nodup_nil, by simp⟩
  intro p hp
  obtain ⟨hnd, hmem⟩ := hwf
  obtain ⟨hfs, hws, hlen, hex⟩ := hmem p hp
  refine ⟨hws, ?_, hlen, hex⟩
  have hs := sightings_process_results rs [] initialize_stats p.1
  have hl := lookupA_of_nodup_mem hnd hp
  unfold sightings at hs
  rw [hl] at hs
  simpa [lookupA] using hs

/-- Witness for C4: the two-sighting stream `wRs` satisfies the size
hypothesis, and the conclusion holds for its catalog. -/
theorem C4_group_arithmetic_witness :
    (∀ r ∈ wRs, r.att.size = wSz r.file_hash) ∧
    ∀ p ∈ (process_results wRs [] initialize_stats).1,
      p.2.total_wasted_space = p.2.file_size * p.2.duplicate_count ∧
      p.2.duplicate_count + 1
        = wRs.countP (fun r => decide (r.file_hash = p.1)) ∧
      p.2.locations.length ≤ 20 ∧
      ∃ loc locs, p.2.locations = loc :: locs ∧ loc.is_canonical = true ∧
        ∀ l ∈ locs, l.is_canonical = false :=
  ⟨by decide, C4_group_arithmetic wSz wRs (by decide)⟩

/-! ## Claim C7 -/

theorem lookupA_updateA_isSome {V : Type} (k' k : String) (u : V → V)
    (l : List (String × V)) :
    (lookupA k' (updateA k u l)).isSome = (lookupA k' l).isSome := by
  by_cases h : k' = k
  · subst h
    rw [lookupA_updateA_self]
    cases lookupA k' l <;> simp
  · rw [lookupA_updateA_ne h]

theorem lookupA_ensureA_isSome {V : Type} (k' k : String) (d : V)
    (l : List (String × V)) (h : (lookupA k' l).isSome = true) :
    (lookupA k' (ensureA k d l)).isSome = true := by
  by_cases hk : k' = k
  · subst hk
    rw [lookupA_ensureA]
    rfl
  · rw [lookupA_ensureA_ne hk]
    exact h

/-- Seen project keys survive any later classification step. -/
theorem project_key_present_step (r : AttachmentResult) (g : Groups)
    (s : ScanStats) (k : String)
    (h : (lookupA k s.project_stats).isSome = true) :
    (lookupA k (process_attachment_result r g s).2.project_stats).isSome
      = true := by
  rw [process_attachment_result_project_stats, classify_step_project_stats]
  unfold project_stats_after
  rw [lookupA_updateA_isSome]
  exact lookupA_ensureA_isSome _ _ _ _ h

/-- Processing a result creates (or keeps) its own project entry. -/
theorem project_key_present_self (r : AttachmentResult) (g : Groups)
    (s : ScanStats) :
    (lookupA r.ctx.project_key
        (process_attachment_result r g s).2.project_stats).isSome = true := by
  rw [process_attachment_result_project_stats, classify_step_project_stats]
  unfold project_stats_after
  rw [lookupA_updateA_isSome, lookupA_ensureA]
  rfl

theorem file_type_key_present_step (r : AttachmentResult) (g : Groups)
    (s : ScanStats) (k : String)
    (h : (lookupA k s.file_type_stats).isSome = true) :
    (lookupA k (process_attachment_result r g s).2.file_type_stats).isSome
      = true := by
  rw [process_attachment_result_file_type_stats, classify_step_file_type_stats]
  unfold file_type_stats_after
  rw [lookupA_updateA_isSome]
  exact lookupA_ensureA_isSome _ _ _ _ h

theorem file_type_key_present_self (r : AttachmentResult) (g : Groups)
    (s : ScanStats) :
    (lookupA (get_file_extension r.att.filename)
        (process_attachment_result r g s).2.file_type_stats).isSome = true := by
  rw [process_attachment_result_file_type_stats, classify_step_file_type_stats]
  unfold file_type_stats_after
  rw [lookupA_updateA_isSome, lookupA_ensureA]
  rfl

theorem project_key_present_fold (rs : List AttachmentResult) :
    ∀ (g : Groups) (s : ScanStats) (k : String),
      (lookupA k s.project_stats).isSome = true →
      (lookupA k (process_results rs g s).2.project_stats).isSome = true := by
  induction rs with
  | nil =>
    intro g s k h
    simpa [process_results] using h
  | cons r rest ih =>
    intro g s k h
    simp only [process_results]
    exact ih _ _ k (project_key_present_step r g s k h)

theorem file_type_key_present_fold (rs : List AttachmentResult) :
    ∀ (g : Groups) (s : ScanStats) (k : String),
      (lookupA k s.file_type_stats).isSome = true →
      (lookupA k (process_results rs g s).2.file_type_stats).isSome = true := by
  induction rs with
  | nil =>
    intro g s k h
    simpa [process_results] using h
  | cons r rest ih =>
    intro g s k h
    simp only [process_results]
    exact ih _ _ k (file_type_key_present_step r g s k h)

theorem subaggregate_entries_aux (rs : List AttachmentResult) :
    ∀ (g : Groups) (s : ScanStats) (r : AttachmentResult), r ∈ rs →
      (lookupA r.ctx.project_key
          (process_results rs g s).2.project_stats).isSome = true ∧
      (lookupA (get_file_extension r.att.filename)
          (process_results rs g s).2.file_type_stats).isSome = true := by
  induction rs with
  | nil =>
    intro g s r h
    simp at h
  | cons r0 rest ih =>
    intro g s r h
    simp only [process_results]
    rcases List.mem_cons.mp h with h | h
    · subst h
      constructor
      · exact project_key_present_fold rest _ _ _
          (project_key_present_self r g s)
      · exact file_type_key_present_fold rest _ _ _
          (file_type_key_present_self r g s)
    · exact ih _ _ r h

/-- Claim C7, amended (corrected).  Both keyed sub-aggregates hold an entry
for every key seen.  The per-project entry (`ProjectStats`) records files
(`file_count`), bytes (`total_size`), duplicate files (`duplicate_count`),
duplicate bytes (`duplicate_size`) and a display name (`project_name`).  The
per-file-extension entry (`FileTypeStats`) records only files (`count`) and
bytes (`total_size`): the source keeps no duplicate counters and no display
name for extensions (see the counterexample theorem). -/
theorem C7_subaggregate_entries (rs : List AttachmentResult)
    (r : AttachmentResult) (hmem : r ∈ rs) :
    (lookupA r.ctx.project_key
        (process_results rs [] initialize_stats).2.project_stats).isSome
      = true ∧
    (lookupA (get_file_extension r.att.filename)
        (process_results rs [] initialize_stats).2.file_type_stats).isSome
      = true :=
  subaggregate_entries_aux rs [] initialize_stats r hmem

/-- Witness for the amended C7 at the concrete stream `wRs`. -/
theorem C7_subaggregate_entries_witness :
    (lookupA wCtx.project_key
        (process_results wRs [] initialize_stats).2.project_stats).isSome
      = true ∧
    (lookupA (get_file_extension wAtt1.filename)
        (process_results wRs [] initialize_stats).2.file_type_stats).isSome
      = true :=
  C7_subaggregate_entries wRs { att := wAtt1, file_hash := "hw", ctx := wCtx }
    (by decide)

/-- Counterexample to C7 as stated.  The two streams `c7rsA` (no duplicates)
and `c7rsB` (one duplicate pair) have identical per-file-extension
aggregates, while their global duplicate-file counts differ — so the
per-extension aggregate records neither duplicate files nor duplicate bytes
for its keys (and no display name field exists for it in the source,
lines 1246-1249). -/
theorem C7_counterexample_file_type_stats_lack_duplicates :
    (process_results c7rsA [] initialize_stats).2.file_type_stats
      = (process_results c7rsB [] initialize_stats).2.file_type_stats ∧
    (process_results c7rsA [] initialize_stats).2.duplicate_files = 0 ∧
    (process_results c7rsB [] initialize_stats).2.duplicate_files = 1 ∧
    (process_results c7rsA [] initialize_stats).2.duplicate_size = 0 ∧
    (process_results c7rsB [] initialize_stats).2.duplicate_size = 10 := by
  decide

/-! ## Claim C8 -/

/-- Claim C8 (confirmed).  For an attachment whose declared size exceeds the
configured maximum, the worker performs no download call and returns
`(attachment_id, hash_from_url(content_url), metadata)` (given that
`hash_from_url` returns, which it always does in practice); and folding that
result into the statistics counts the attachment's declared size into
`total_size`. -/
theorem C8_oversize_bypass (cfg : DlConfig) (env : WorkerEnv)
    (attachment : Attachment) (u : String)
    (hsize : attachment.size > cfg.maxFileSize)
    (hurl : env.urlHashOutcome attachment.contentUrl = some u) :
    download_and_hash_single cfg env attachment
      = (.result (attachment.id, u, attachment), []) ∧
    ∀ (ctx : IssueCtx) (g : Groups) (s : ScanStats),
      (process_attachment_result
          { att := attachment, file_hash := u, ctx := ctx } g s).2.total_size
        = s.total_size + attachment.size := by
  constructor
  · simp [download_and_hash_single, hsize, hurl]
  · intro ctx g s
    obtain ⟨_, e2, _, _, _⟩ := process_attachment_result_scalars
      { att := attachment, file_hash := u, ctx := ctx } g s
    rw [e2]
    rcases hl : lookupA u g with _ | v
    · rw [classify_step_of_new hl]
    · rw [classify_step_of_mem hl]

/-- Witness for C8 at the oversize attachment `attBig` under `dlCfgW`/`envW`. -/
theorem C8_oversize_bypass_witness :
    attBig.size > dlCfgW.maxFileSize ∧
    envW.urlHashOutcome attBig.contentUrl = some "uh-u-big" ∧
    (download_and_hash_single dlCfgW envW attBig
        = (.result (attBig.id, "uh-u-big", attBig), []) ∧
     ∀ (ctx : IssueCtx) (g : Groups) (s : ScanStats),
       (process_attachment_result
           { att := attBig, file_hash := "uh-u-big", ctx := ctx } g s).2.total_size
         = s.total_size + attBig.size) :=
  ⟨by decide, by decide,
   C8_oversize_bypass dlCfgW envW attBig "uh-u-big" (by decide) (by decide)⟩

/-! ## Claim C9 -/

/-- A normal-size attachment whose download raises but whose URL hash
succeeds yields the URL-hash result. -/
theorem single_fallback_result (cfg : DlConfig) (env : WorkerEnv)
    (attachment : Attachment) (u : String)
    (hsize : attachment.size ≤ cfg.maxFileSize)
    (hmode : cfg.useContentHash = true)
    (hfail : env.download attachment = none)
    (hurl : env.urlHashOutcome attachment.contentUrl = some u) :
    (download_and_hash_single cfg env attachment).1
      = .result (attachment.id, u, attachment) := by
  have hgt : ¬ attachment.size > cfg.maxFileSize := by omega
  simp [download_and_hash_single, hgt, hmode, hfail, hurl]

/-- A normal-size attachment whose download and URL hash both raise is
returned as `None`. -/
theorem single_fallback_dropped (cfg : DlConfig) (env : WorkerEnv)
    (attachment : Attachment)
    (hsize : attachment.size ≤ cfg.maxFileSize)
    (hmode : cfg.useContentHash = true)
    (hfail : env.download attachment = none)
    (hurl : env.urlHashOutcome attachment.contentUrl = none) :
    (download_and_hash_single cfg env attachment).1 = .dropped := by
  have hgt : ¬ attachment.size > cfg.maxFileSize := by omega
  simp [download_and_hash_single, hgt, hmode, hfail, hurl]

/-- Whatever path `_download_and_hash_single` takes, a returned tuple carries
the worker's own attachment and its id. -/
theorem single_result_shape (cfg : DlConfig) (env : WorkerEnv)
    (a : Attachment) (p : String × String × Attachment)
    (h : (download_and_hash_single cfg env a).1 = .result p) :
    p.1 = a.id ∧ p.2.2 = a := by
  unfold download_and_hash_single at h
  by_cases hbig : a.size > cfg.maxFileSize
  · rw [if_pos hbig] at h
    rcases hu : env.urlHashOutcome a.contentUrl with _ | uu
    all_goals rw [hu] at h
    · simp at h
    · simp only [SingleOutcome.result.injEq] at h
      rw [← h]
      exact ⟨rfl, rfl⟩
  · rw [if_neg hbig] at h
    by_cases hmode : cfg.useContentHash
    · rw [if_pos hmode] at h
      rcases hd : env.download a with _ | c
      all_goals rw [hd] at h
      · rcases hu : env.urlHashOutcome a.contentUrl with _ | uu
        all_goals rw [hu] at h
        · simp at h
        · simp only [SingleOutcome.result.injEq] at h
          rw [← h]
          exact ⟨rfl, rfl⟩
      · simp only [SingleOutcome.result.injEq] at h
        rw [← h]
        exact ⟨rfl, rfl⟩
    · rw [if_neg hmode] at h
      rcases hu : env.urlHashOutcome a.contentUrl with _ | uu
      all_goals rw [hu] at h
      · simp at h
      · simp only [SingleOutcome.result.injEq] at h
        rw [← h]
        exact ⟨rfl, rfl⟩

/-- Every batch entry comes from some attachment of the batch: either its
worker returned that tuple, or the worker raised and the batch-level
`hash_from_url` fallback produced it. -/
theorem mem_batch_cases (cfg : DlConfig) (env : WorkerEnv) :
    ∀ (atts : List Attachment) (p : String × String × Attachment),
      p ∈ download_and_hash_batch cfg env atts →
      ∃ z ∈ atts,
        (download_and_hash_single cfg env z).1 = .result p ∨
        ((download_and_hash_single cfg env z).1 = .raised ∧
          ∃ u, env.urlHashOutcome z.contentUrl = some u ∧ p = (z.id, u, z)) := by
  intro atts
  induction atts with
  | nil =>
    intro p h
    simp [download_and_hash_batch] at h
  | cons a rest ih =>
    intro p h
    unfold download_and_hash_batch at h
    rcases hs : (download_and_hash_single cfg env a).1 with _ | _ | rr
    · rw [hs] at h
      rcases hu : env.urlHashOutcome a.contentUrl with _ | uu
      all_goals rw [hu] at h
      · obtain ⟨z, hz, hor⟩ := ih p h
        exact ⟨z, List.mem_cons_of_mem _ hz, hor⟩
      · rcases List.mem_cons.mp h with h | h
        · exact ⟨a, List.mem_cons_self _ _,
            Or.inr ⟨hs, uu, hu, h⟩⟩
        · obtain ⟨z, hz, hor⟩ := ih p h
          exact ⟨z, List.mem_cons_of_mem _ hz, hor⟩
    · rw [hs] at h
      obtain ⟨z, hz, hor⟩ := ih p h
      exact ⟨z, List.mem_cons_of_mem _ hz, hor⟩
    · rw [hs] at h
      rcases List.mem_cons.mp h with h | h
      · subst h
        exact ⟨a, List.mem_cons_self _ _, Or.inl hs⟩
      · obtain ⟨z, hz, hor⟩ := ih p h
        exact ⟨z, List.mem_cons_of_mem _ hz, hor⟩

/-- A worker result tuple appears in its batch's output. -/
theorem batch_mem_of_single_result (cfg : DlConfig) (env : WorkerEnv)
    (attachment : Attachment) (p : String × String × Attachment)
    (hres : (download_and_hash_single cfg env attachment).1 = .result p) :
    ∀ (atts : List Attachment), attachment ∈ atts →
      p ∈ download_and_hash_batch cfg env atts := by
  intro atts
  induction atts with
  | nil =>
    intro h
    simp at h
  | cons a rest ih =>
    intro hmem
    unfold download_and_hash_batch
    rcases List.mem_cons.mp hmem with h | h
    · subst h
      rw [hres]
      exact List.mem_cons_self _ _
    · rcases hs : (download_and_hash_single cfg env a).1 with _ | _ | rr
      · rcases hu : env.urlHashOutcome a.contentUrl with _ | uu
        · exact ih h
        · exact List.mem_cons_of_mem _ (ih h)
      · exact ih h
      · exact List.mem_cons_of_mem _ (ih h)

/-- Claim C9 (confirmed).  In a batch, an attachment of admissible size whose
download (or hashing of the stream) raises in content-hash mode is still
reported with the URL hash as its fingerprint whenever `hash_from_url`
returns; the batch call itself is total (`download_and_hash_batch` always
returns a list, so the scan does not abort).  Only when the URL-hash fallback
itself also raises is the item excluded from the batch result. -/
theorem C9_per_file_fallback (cfg : DlConfig) (env : WorkerEnv)
    (attachments : List Attachment) (attachment : Attachment)
    (hmem : attachment ∈ attachments)
    (hsize : attachment.size ≤ cfg.maxFileSize)
    (hmode : cfg.useContentHash = true)
    (hfail : env.download attachment = none) :
    (∀ u, env.urlHashOutcome attachment.contentUrl = some u →
        (attachment.id, u, attachment) ∈
          download_and_hash_batch cfg env attachments) ∧
    (env.urlHashOutcome attachment.contentUrl = none →
        ∀ u, (attachment.id, u, attachment) ∉
          download_and_hash_batch cfg env attachments) := by
  constructor
  · intro u hurl
    exact batch_mem_of_single_result cfg env attachment _
      (single_fallback_result cfg env attachment u hsize hmode hfail hurl)
      attachments hmem
  · intro hurl u hin
    obtain ⟨z, _, hor⟩ := mem_batch_cases cfg env attachments
      (attachment.id, u, attachment) hin
    have hdropped := single_fallback_dropped cfg env attachment
      hsize hmode hfail hurl
    rcases hor with hres | ⟨hraised, _, _, hp⟩
    · have hz := (single_result_shape cfg env z _ hres).2
      simp only at hz
      rw [hz] at hdropped
      rw [hres] at hdropped
      exact SingleOutcome.noConfusion hdropped
    · have hz : z = attachment := congrArg (fun q => q.2.2) hp.symm
      rw [← hz] at hdropped
      rw [hraised] at hdropped
      exact SingleOutcome.noConfusion hdropped

/-- Witness for C9: in the batch `[attOk, attBad]` under `envW`, the failing
download of `attBad` is reported with its URL hash. -/
theorem C9_per_file_fallback_witness :
    attBad ∈ [attOk, attBad] ∧
    ((∀ u, envW.urlHashOutcome attBad.contentUrl = some u →
        (attBad.id, u, attBad) ∈
          download_and_hash_batch dlCfgW envW [attOk, attBad]) ∧
     (envW.urlHashOutcome attBad.contentUrl = none →
        ∀ u, (attBad.id, u, attBad) ∉
          download_and_hash_batch dlCfgW envW [attOk, attBad])) :=
  ⟨by decide,
   C9_per_file_fallback dlCfgW envW [attOk, attBad] attBad
     (by decide) (by decide) (by decide) (by decide)⟩

/-! ## Claim C10 -/

/-- One `wait_if_needed` call completes no earlier than `min_interval` after
the recorded previous request time, records its completion time, and leaves
`min_interval` unchanged. -/
theorem wait_if_needed_spec (rl : RateLimiter) (now : ℚ) :
    rl.lastRequestTime + rl.minInterval ≤ (wait_if_needed rl now).2 ∧
    (wait_if_needed rl now).1.lastRequestTime = (wait_if_needed rl now).2 ∧
    (wait_if_needed rl now).1.minInterval = rl.minInterval := by
  simp only [wait_if_needed]
  split_ifs with h
  · refine ⟨?_, rfl, rfl⟩
    show rl.lastRequestTime + rl.minInterval
      ≤ now + (rl.minInterval - (now - rl.lastRequestTime))
    linarith
  · refine ⟨?_, rfl, rfl⟩
    show rl.lastRequestTime + rl.minInterval ≤ now
    linarith

/-- Sequential admissions are spaced at least `min_interval` apart. -/
theorem admission_times_spaced (calls : List ℚ) :
    ∀ rl : RateLimiter, SpacedBy rl.minInterval (admission_times rl calls) := by
  induction calls with
  | nil =>
    intro rl
    simp [admission_times, SpacedBy]
  | cons now rest ih =>
    intro rl
    obtain ⟨h1, h2, h3⟩ := wait_if_needed_spec rl now
    cases rest with
    | nil => simp [admission_times, SpacedBy]
    | cons now2 rest2 =>
      have htail := ih (wait_if_needed rl now).1
      simp only [admission_times] at htail ⊢
      rw [h3] at htail
      refine ⟨?_, htail⟩
      have hnext := (wait_if_needed_spec (wait_if_needed rl now).1 now2).1
      rw [h2, h3] at hnext
      exact hnext

theorem spacedBy_tail (δ : ℚ) (x : ℚ) (l : List ℚ)
    (h : SpacedBy δ (x :: l)) : SpacedBy δ l := by
  cases l with
  | nil => simp [SpacedBy]
  | cons b rest =>
    have h' : x + δ ≤ b ∧ SpacedBy δ (b :: rest) := by
      simpa [SpacedBy] using h
    exact h'.2

theorem spacedBy_all_ge (δ : ℚ) (hδ : 0 ≤ δ) :
    ∀ (x : ℚ) (l : List ℚ), SpacedBy δ (x :: l) → ∀ y ∈ l, x + δ ≤ y := by
  intro x l
  induction l generalizing x with
  | nil =>
    intro _ y hy
    simp at hy
  | cons b rest ih =>
    intro hsp y hy
    simp only [SpacedBy] at hsp
    rcases List.mem_cons.mp hy with h | h
    · subst h
      exact hsp.1
    · have hb := ih b hsp.2 y h
      linarith [hsp.1]

/-- A `δ`-spaced list has at most `n` elements in any half-open window of
length `n·δ`. -/
theorem spacedBy_count_window (δ : ℚ) (hδ : 0 ≤ δ) :
    ∀ (l : List ℚ), SpacedBy δ l → ∀ (t : ℚ) (n : Nat),
      l.countP (fun x => decide (t ≤ x ∧ x < t + (n : ℚ) * δ)) ≤ n := by
  intro l
  induction l with
  | nil =>
    intro _ t n
    simp
  | cons x rest ih =>
    intro hsp t n
    have hrest := spacedBy_tail δ x rest hsp
    rw [List.countP_cons]
    by_cases hx : t ≤ x ∧ x < t + (n : ℚ) * δ
    · cases n with
      | zero =>
        exfalso
        obtain ⟨hx1, hx2⟩ := hx
        simp only [Nat.cast_zero, zero_mul, add_zero] at hx2
        linarith
      | succ m =>
        have hall := spacedBy_all_ge δ hδ x rest hsp
        obtain ⟨hx1, hx2⟩ := hx
        have hmono : rest.countP
              (fun y => decide (t ≤ y ∧ y < t + ((m + 1 : Nat) : ℚ) * δ))
            ≤ rest.countP
              (fun y => decide (x + δ ≤ y ∧ y < (x + δ) + (m : ℚ) * δ)) := by
          apply List.countP_mono_left
          intro y hy hp
          have h1 := hall y hy
          simp only [decide_eq_true_eq] at hp ⊢
          obtain ⟨hp1, hp2⟩ := hp
          push_cast at hp2 ⊢
          exact ⟨h1, by linarith⟩
        have hbound := ih hrest (x + δ) m
        have hxp : decide (t ≤ x ∧ x < t + ((m + 1 : Nat) : ℚ) * δ) = true :=
          decide_eq_true ⟨hx1, hx2⟩
        rw [hxp]
        simp only [if_true]
        omega
    · have hxp : decide (t ≤ x ∧ x < t + (n : ℚ) * δ) = false :=
        decide_eq_false hx
      rw [hxp]
      simp only [Bool.false_eq_true, if_false, add_zero]
      exact ih hrest t n

/-- Claim C10, amended (corrected).  For sequential (non-overlapping) acquire
calls the source's rate limiter does enforce the spacing: on a logical clock,
consecutive admission times of `wait_if_needed` are at least `1/R` apart, and
hence any half-open 1-second window contains at most `R` admissions.  The
concurrent half of the claim fails — see the counterexample — because the
source guards `last_request_time` with no lock. -/
theorem C10_sequential_rate_bound (R : Nat) (calls : List ℚ) (t : ℚ)
    (hR : 0 < R) :
    SpacedBy (mkRateLimiter R).minInterval
      (admission_times (mkRateLimiter R) calls) ∧
    (admission_times (mkRateLimiter R) calls).countP
      (fun x => decide (t ≤ x ∧ x < t + 1)) ≤ R := by
  have hR0 : ((R : ℚ)) ≠ 0 := Nat.cast_ne_zero.mpr (Nat.pos_iff_ne_zero.mp hR)
  have hδ : (0 : ℚ) ≤ (mkRateLimiter R).minInterval := by
    simp only [mkRateLimiter]
    positivity
  refine ⟨admission_times_spaced calls (mkRateLimiter R), ?_⟩
  have hwin := spacedBy_count_window (mkRateLimiter R).minInterval hδ
    (admission_times (mkRateLimiter R) calls)
    (admission_times_spaced calls (mkRateLimiter R)) t R
  have h1 : t + (R : ℚ) * (mkRateLimiter R).minInterval = t + 1 := by
    simp only [mkRateLimiter]
    rw [mul_one_div_cancel hR0]
  rw [h1] at hwin
  exact hwin

/-- Witness for the amended C10: rate 2, three sequential calls. -/
theorem C10_sequential_rate_bound_witness :
    0 < 2 ∧
    (SpacedBy (mkRateLimiter 2).minInterval
        (admission_times (mkRateLimiter 2) [0, 0, 5]) ∧
     (admission_times (mkRateLimiter 2) [0, 0, 5]).countP
        (fun x => decide ((0 : ℚ) ≤ x ∧ x < 0 + 1)) ≤ 2) :=
  ⟨by norm_num, C10_sequential_rate_bound 2 [0, 0, 5] 0 (by norm_num)⟩

/-- Counterexample to C10 as stated (its "including concurrent ones" part).
With `R = 1` (`min_interval = 1`), two threads both entering
`wait_if_needed` at time 1 on a fresh limiter, interleaved as
read-read-write-write — possible because the source holds no lock — are both
admitted at time 1: the later acquire is admitted less than `1/R` after the
earlier one, and the window `[1, 2)` sees 2 > R = 1 admissions. -/
theorem C10_counterexample_concurrent_acquires :
    (racy_pair_admission (mkRateLimiter 1) 1).1 = 1 ∧
    (racy_pair_admission (mkRateLimiter 1) 1).2 = 1 ∧
    ¬ ((racy_pair_admission (mkRateLimiter 1) 1).1 + (mkRateLimiter 1).minInterval
        ≤ (racy_pair_admission (mkRateLimiter 1) 1).2) ∧
    (mkRateLimiter 1).maxRequests = 1 ∧
    [(racy_pair_admission (mkRateLimiter 1) 1).1,
     (racy_pair_admission (mkRateLimiter 1) 1).2].countP
        (fun x => decide ((1 : ℚ) ≤ x ∧ x < 1 + 1)) = 2 := by
  norm_num [racy_pair_admission, mkRateLimiter, List.countP_cons]

end AttachmentArchitect
